import Mathlib

/-!
Shallow embedding of the `bytearray` repository (an ActionScript-3-style
`ByteArray` class for Node.js, `src/src/index.ts`, per-type variant) and
verification of the claims about it.

Modelling conventions:
* A Node `Buffer` is a `List Nat` of byte values (each in `0..255`).
* JavaScript numbers are embedded as `Int` (and `Rat` where a claim needs a
  non-integer); all values in the verified flows are exact integers well
  below `2^53`, where JS double arithmetic is exact.
* JavaScript 32-bit bitwise operations (`&`, `<<`) convert operands with
  `ToInt32`/`ToUint32` and return a signed 32-bit result; `jsToUInt32`,
  `jsToInt32`, `jsAnd`, `jsShl` model that exactly.
* A throwing method is embedded as a function into `Option` (`none` = throw);
  Node's bounds-checked `Buffer` reads throw before any cursor mutation, so
  a `none` result leaves the `ByteArray` state unchanged.
-/

namespace Bytearray

/-- The `Endian` enum of the source (`"BE"` / `"LE"`). -/
inductive Endian where
  | BE : Endian
  | LE : Endian
deriving DecidableEq, Repr

/-- State of the `ByteArray` class: the backing `Buffer` as a list of byte
values, the cursor `position`, and the byte order.  (`objectEncoding` plays
no role in any claim and is omitted.) -/
structure ByteArray where
  buffer : List Nat
  position : Nat
  endian : Endian
deriving DecidableEq, Repr

/-- Model of `getLength()`: `this.buffer.length`. -/
def getLength (ba : ByteArray) : Nat :=
  ba.buffer.length

/-- Model of `getBytesAvailable()`: `this.getLength() - this.position` (a JS number,
possibly negative when the cursor sits past the end, hence `Int`). -/
def getBytesAvailable (ba : ByteArray) : Int :=
  (getLength ba : Int) - (ba.position : Int)

/-- Model of `clear()`: empty the buffer and zero the position. -/
def clear (ba : ByteArray) : ByteArray :=
  { ba with buffer := [], position := 0 }

/-- Model of `expand(value)`: if `getBytesAvailable() < value` the buffer is
reallocated to `old.length + (value - getBytesAvailable())` zeroed bytes and
the old content copied to offset 0 — i.e. `value - getBytesAvailable()`
zero bytes are appended. -/
def expand (value : Int) (ba : ByteArray) : ByteArray :=
  if getBytesAvailable ba < value then
    { ba with buffer := ba.buffer ++ List.replicate (value - getBytesAvailable ba).toNat 0 }
  else ba

/-- Model of `setLength(value)`: throws on a negative (or non-integer, excluded by the
`Int` embedding) argument; `0` clears; a value below the current length
truncates with `buffer.slice(0, value)` and then sets
`position = getLength()` (the length *after* the slice, i.e. `value`);
a larger value goes through `expand(value)`. -/
def setLength (value : Int) (ba : ByteArray) : Option ByteArray :=
  if value < 0 then none
  else if value = 0 then some (clear ba)
  else if value = (getLength ba : Int) then some ba
  else if value < (getLength ba : Int) then
    some { ba with buffer := ba.buffer.take value.toNat, position := value.toNat }
  else some (expand value ba)

/-- JS `ToUint32`: the operand reduced modulo `2^32` into `0 ≤ _ < 2^32`. -/
def jsToUInt32 (v : Int) : Nat :=
  (v % (2 ^ 32 : Int)).toNat

/-- JS `ToInt32`: the operand reduced modulo `2^32` and reinterpreted as a
signed 32-bit value. -/
def jsToInt32 (v : Int) : Int :=
  if jsToUInt32 v < 2 ^ 31 then (jsToUInt32 v : Int) else (jsToUInt32 v : Int) - 2 ^ 32

/-- JS bitwise `a & b`: both operands pass through `ToInt32`; the bitwise
conjunction of the 32-bit patterns is reinterpreted as signed. -/
def jsAnd (a b : Int) : Int :=
  jsToInt32 ((jsToUInt32 a).land (jsToUInt32 b))

/-- JS shift `a << b`: the shift count is taken modulo 32 and the shifted
32-bit pattern is reinterpreted as signed. -/
def jsShl (a b : Int) : Int :=
  jsToInt32 ((jsToUInt32 a).shiftLeft (jsToUInt32 b % 32))

/-- Model of `signedOverflow(value, bits)`:
`const sign = 1 << (bits - 1); return (value & (sign - 1)) - (value & sign);`
with JS 32-bit bitwise semantics (in particular `1 << 31` is `-2^31`). -/
def signedOverflow (value bits : Int) : Int :=
  jsAnd value (jsShl 1 (bits - 1) - 1) - jsAnd value (jsShl 1 (bits - 1))

/-- Big-endian composition of a byte list into an unsigned value
(`b₀·256^(k-1) + … + b_{k-1}`), as Node's `read*BE` accessors do. -/
def beCompose (bytes : List Nat) : Nat :=
  bytes.foldl (fun acc b => acc * 256 + b) 0

/-- The `k` bytes of the buffer starting at `pos`. -/
def bytesAt (buf : List Nat) (pos k : Nat) : List Nat :=
  (buf.drop pos).take k

/-- Reinterpret an unsigned 64-bit pattern as signed (Node `readBigInt64*`). -/
def asInt64 (m : Nat) : Int :=
  if m < 2 ^ 63 then (m : Int) else (m : Int) - 2 ^ 64

/-- Model of `readInt()`: Node's `readInt32BE/LE(this.position)` — throws
`ERR_OUT_OF_RANGE` unless 4 bytes are available at `position`, *before* the
cursor mutation, so the returned state on failure (`none` result) is the
unchanged receiver; on success the 4 bytes are decoded per the current
endianness as a signed 32-bit value and `this.position += 4`. -/
def readInt (ba : ByteArray) : Option Int × ByteArray :=
  if ba.position + 4 ≤ ba.buffer.length then
    let raw := match ba.endian with
      | .BE => beCompose (bytesAt ba.buffer ba.position 4)
      | .LE => beCompose (bytesAt ba.buffer ba.position 4).reverse
    (some (jsToInt32 raw), { ba with position := ba.position + 4 })
  else (none, ba)

/-- Model of `readLong()`: `Number(this.buffer.readBigInt64BE/LE(this.position))`
(8 bytes decoded as signed 64-bit; the `Number` conversion is exact for
magnitudes below `2^53`, which covers every value used here), followed by
`this.position += 4` — the literal increment in the source.  As with
`readInt`, a bounds failure throws before the cursor mutation. -/
def readLong (ba : ByteArray) : Option Int × ByteArray :=
  if ba.position + 8 ≤ ba.buffer.length then
    let raw := match ba.endian with
      | .BE => beCompose (bytesAt ba.buffer ba.position 8)
      | .LE => beCompose (bytesAt ba.buffer ba.position 8).reverse
    (some (asInt64 raw), { ba with position := ba.position + 4 })
  else (none, ba)

/-- The byte stored by Node `writeInt8` for an in-range signed value: its
two's-complement pattern `v mod 256`. -/
def byteOfInt (v : Int) : Nat :=
  (v % 256).toNat

/-- Model of `writeByte(value)`: `expand(1)` then
`writeInt8(signedOverflow(value, 8), this.position++)`. -/
def writeByte (value : Int) (ba : ByteArray) : ByteArray :=
  let ba1 := expand 1 ba
  { ba1 with
    buffer := ba1.buffer.set ba1.position (byteOfInt (signedOverflow value 8)),
    position := ba1.position + 1 }

/-- Round `n / 2^shift` to the nearest integer, ties to even
(IEEE-754 default rounding); `shift ≥ 1` at every use. -/
def roundHalfEven (n shift : Nat) : Nat :=
  let q := n / 2 ^ shift
  let r := n % 2 ^ shift
  let half := 2 ^ (shift - 1)
  if half < r ∨ (r = half ∧ q % 2 = 1) then q + 1 else q

/-- Floor of the base-2 logarithm, by fuel recursion (the first argument is
the fuel; `log2floor n = log2floorAux n n` gives the exact floor for
`n ≥ 1`). -/
def log2floorAux : Nat → Nat → Nat
  | 0, _ => 0
  | fuel + 1, n => if n ≤ 1 then 0 else log2floorAux fuel (n / 2) + 1

/-- Floor base-2 logarithm `⌊log₂ n⌋` for `n ≥ 1` (and `0` at `0`). -/
def log2floor (n : Nat) : Nat :=
  log2floorAux n n

/-- The IEEE-754 binary32 bit pattern Node's `writeFloat*` stores for an
integer-valued JS number (exact for the magnitudes arising here, where the
rounded significand keeps the exponent below the infinity threshold):
normalise `|v|` to `1.f × 2^e`, round the 24-bit significand to nearest
even, and pack sign, biased exponent and fraction. -/
def float32bits (v : Int) : Nat :=
  if v = 0 then 0
  else
    let s : Nat := if v < 0 then 1 else 0
    let n : Nat := v.natAbs
    let e : Nat := log2floor n
    let m : Nat := if e ≤ 23 then n * 2 ^ (23 - e) else roundHalfEven n (e - 23)
    let em : Nat × Nat := if m = 2 ^ 24 then (e + 1, 2 ^ 23) else (e, m)
    s * 2 ^ 31 + (em.1 + 127) * 2 ^ 23 + (em.2 - 2 ^ 23)

/-- The four bytes of a 32-bit pattern, most significant first. -/
def be4 (bits : Nat) : List Nat :=
  [bits / 2 ^ 24 % 256, bits / 2 ^ 16 % 256, bits / 2 ^ 8 % 256, bits % 256]

/-- Overwrite the buffer with the given bytes starting at `pos`. -/
def storeBytes (buf : List Nat) (pos : Nat) : List Nat → List Nat
  | [] => buf
  | b :: rest => storeBytes (buf.set pos b) (pos + 1) rest

/-- Model of `writeInt(value)` of the per-type variant: `expand(4)` and then —
the source's slip — `writeFloatBE/LE(signedOverflow(value, 32),
this.position)` (not `writeInt32BE/LE`), so the four bytes stored are the
IEEE-754 binary32 pattern of the wrapped value; then `this.position += 4`. -/
def writeInt (value : Int) (ba : ByteArray) : ByteArray :=
  let ba1 := expand 4 ba
  let bits := float32bits (signedOverflow value 32)
  let bytes := match ba1.endian with
    | .BE => be4 bits
    | .LE => (be4 bits).reverse
  { ba1 with buffer := storeBytes ba1.buffer ba1.position bytes, position := ba1.position + 4 }

/-- The copy loop of `readBytes`:
`for (i = 0; i < len; i++) dst.buffer[i + offset] = src.buffer[i + pos]`.
(`List.set` ignores an out-of-range index, exactly as a typed-array store
does; the loop only runs in-range in every verified flow.) -/
def copyLoop (srcBuf dstBuf : List Nat) (pos offset len : Nat) : List Nat :=
  (List.range len).foldl (fun b i => b.set (i + offset) (srcBuf.getD (i + pos) 0)) dstBuf

/-- The `length` defaulting line of `readBytes`:
`if (length === 0) length = this.getBytesAvailable();`. -/
def defaultedLength (src : ByteArray) (length : Nat) : Int :=
  if length = 0 then getBytesAvailable src else (length : Int)

/-- The destination-growth line of `readBytes`:
`if (bytes.getLength() < offset + length) bytes.expand(offset + length);`. -/
def growDest (dest : ByteArray) (m : Int) : ByteArray :=
  if (getLength dest : Int) < m then expand m dest else dest

/-- Model of `readBytes(bytes, offset, length)`: a zero `length` defaults to
`getBytesAvailable()`; a length above the available bytes throws
`RangeError("End of buffer was encountered.")` (before any mutation); the
destination is grown by `growDest`; the bytes are copied by `copyLoop`;
finally only the source cursor advances by `length`.  Returns
`(source, destination)` after the call. -/
def readBytes (src dest : ByteArray) (offset length : Nat) : Option (ByteArray × ByteArray) :=
  if getBytesAvailable src < defaultedLength src length then none
  else
    some ({ src with position := ((src.position : Int) + defaultedLength src length).toNat },
      { growDest dest ((offset : Int) + defaultedLength src length) with
        buffer := copyLoop src.buffer
          (growDest dest ((offset : Int) + defaultedLength src length)).buffer
          src.position offset (defaultedLength src length).toNat })

/-- Model of `writeMultiByte(value, charset)`: `this.position += Buffer.byteLength(value)`
(the UTF-8 byte length of the input string, taken *before* the charset
check), then — when the charset collaborator knows the charset — the
encoded bytes are appended to the end of the buffer
(`Buffer.concat([this.buffer, encode(value, charset)])`); an unknown
charset throws (with the cursor already advanced).  The iconv-lite
collaborator is abstracted as the pair `existsFn` / `encodeFn`. -/
def writeMultiByte (encodeFn : String → String → List Nat) (existsFn : String → Bool)
    (value charset : String) (ba : ByteArray) : Option ByteArray :=
  let ba1 := { ba with position := ba.position + value.utf8ByteSize }
  if existsFn charset then
    some { ba1 with buffer := ba1.buffer ++ encodeFn value charset }
  else none

/-- Model of `setPosition(value)`: `if (value >= 0) this.position = value; else throw`.
The argument is a JS number, which need not be an integer; it is embedded
as a rational.  The accepted value is stored unchanged as the position. -/
def setPosition (value : ℚ) : Option ℚ :=
  if 0 ≤ value then some value else none

/-! ## Helper lemmas -/

/-- Lemma: `expand` leaves the cursor untouched. -/
theorem expand_position (value : Int) (ba : ByteArray) :
    (expand value ba).position = ba.position := by
  unfold expand
  split <;> rfl

/-- Lemma: `expand` leaves the endianness untouched. -/
theorem expand_endian (value : Int) (ba : ByteArray) :
    (expand value ba).endian = ba.endian := by
  unfold expand
  split <;> rfl

/-- When growth triggers, `expand` appends `value - getBytesAvailable` zero
bytes. -/
theorem expand_of_lt {value : Int} {ba : ByteArray} (h : getBytesAvailable ba < value) :
    expand value ba
      = { ba with buffer := ba.buffer ++ List.replicate (value - getBytesAvailable ba).toNat 0 } := by
  unfold expand
  exact if_pos h

/-- When enough bytes are available, `expand` is the identity. -/
theorem expand_of_le {value : Int} {ba : ByteArray} (h : value ≤ getBytesAvailable ba) :
    expand value ba = ba := by
  unfold expand
  exact if_neg (by omega)

/-- After `expand value`, at least `value` bytes are available past the
cursor (for a nonnegative request). -/
theorem le_length_expand (value : Int) (ba : ByteArray) :
    (ba.position : Int) + value ≤ ((expand value ba).buffer.length : Int) := by
  unfold expand
  split
  · rename_i h
    rw [List.length_append, List.length_replicate]
    unfold getBytesAvailable getLength at h ⊢
    omega
  · rename_i h
    unfold getBytesAvailable getLength at h
    omega

/-- The copy loop never changes the destination length (a typed-array store
never grows the target). -/
theorem copyLoop_length (s d : List Nat) (p o n : Nat) :
    (copyLoop s d p o n).length = d.length := by
  suffices hgen : ∀ (l : List Nat) (d0 : List Nat),
      (l.foldl (fun b i => b.set (i + o) (s.getD (i + p) 0)) d0).length = d0.length by
    exact hgen (List.range n) d
  intro l
  induction l with
  | nil => intro d0; rfl
  | cons a t ih => intro d0; rw [List.foldl_cons, ih, List.length_set]

/-- One unrolling of the copy loop. -/
theorem copyLoop_succ (s d : List Nat) (p o n : Nat) :
    copyLoop s d p o (n + 1) = (copyLoop s d p o n).set (n + o) (s.getD (n + p) 0) := by
  unfold copyLoop
  rw [List.range_succ, List.foldl_append]
  rfl

/-- Inside the copied range the destination holds the source bytes. -/
theorem copyLoop_getD (s d : List Nat) (p o n : Nat) :
    ∀ j, j < n → o + j < d.length →
      (copyLoop s d p o n).getD (o + j) 0 = s.getD (p + j) 0 := by
  induction n with
  | zero => intro j hj _; omega
  | succ n ih =>
    intro j hj hb
    rw [copyLoop_succ]
    have hlen := copyLoop_length s d p o n
    by_cases hjn : j = n
    · subst hjn
      rw [Nat.add_comm o j, Nat.add_comm p j]
      rw [List.getD_eq_getElem _ _ (by rw [List.length_set, hlen]; omega)]
      exact List.getElem_set_self _
    · have hne : n + o ≠ o + j := by omega
      rw [List.getD_eq_getElem _ _ (by rw [List.length_set, hlen]; omega),
        List.getElem_set_ne hne,
        ← List.getD_eq_getElem _ _ (by rw [hlen]; omega)]
      exact ih j (by omega) hb

/-! ## Claim theorems -/

/-- C4: of the spec's three reference values for `signedOverflow`, the 8-bit
and 16-bit ones hold, but at width 32 the code returns `+2^31` instead of
the claimed `-2^31`: JS evaluates `1 << 31` to `-2^31`, so
`value & sign` is `-2^31` for an input with the sign bit set and the
subtraction *adds* `2^31`. -/
theorem signedOverflow_reference_values :
    signedOverflow 200 8 = -56 ∧ signedOverflow 40000 16 = -25536 ∧
      signedOverflow (2 ^ 31) 32 = 2 ^ 31 ∧ ((2 ^ 31 : Int) ≠ -(2 ^ 31)) :=
  ⟨by decide, by decide, by decide, by decide⟩

/-- C2: `readLong` reads 8 bytes but advances the cursor by only 4: on an
8-byte zero buffer at position 0 the read succeeds and leaves
`position = 4`, not the claimed 8. -/
theorem readLong_advances_by_four :
    readLong ⟨List.replicate 8 0, 0, .BE⟩ = (some 0, ⟨List.replicate 8 0, 4, .BE⟩) ∧
      (4 : Nat) ≠ 8 :=
  ⟨by decide, by decide⟩

set_option maxRecDepth 8192 in
/-- C1: the `writeInt`/`readInt` round trip fails: `writeInt` stores the
IEEE-754 binary32 pattern of the wrapped value (`writeFloatBE/LE` instead of
`writeInt32BE/LE`), so writing `1` into an empty buffer and reading from
position 0 yields `1065353216` (`0x3F800000`, the float bits of `1.0`)
under both endianness settings. -/
theorem writeInt_readInt_roundtrip_fails :
    readInt { writeInt 1 ⟨[], 0, .BE⟩ with position := 0 }
        = (some 1065353216, ⟨[63, 128, 0, 0], 4, .BE⟩) ∧
      readInt { writeInt 1 ⟨[], 0, .LE⟩ with position := 0 }
        = (some 1065353216, ⟨[0, 0, 128, 63], 4, .LE⟩) ∧
      ((1065353216 : Int) ≠ 1) :=
  ⟨by decide, by decide, by decide⟩

/-- C7: a `readInt` on a buffer with fewer than 4 bytes available fails
(Node's bounds check throws before the cursor update), and the returned
state is the unchanged receiver — in particular the position does not
advance past the available bytes. -/
theorem readInt_end_of_buffer (ba : ByteArray) (h : ba.buffer.length < ba.position + 4) :
    readInt ba = (none, ba) := by
  unfold readInt
  exact if_neg (by omega)

/-- C7 witness: a 2-byte buffer at position 0. -/
theorem readInt_end_of_buffer_witness :
    readInt ⟨[1, 2], 0, .BE⟩ = (none, ⟨[1, 2], 0, .BE⟩) :=
  readInt_end_of_buffer ⟨[1, 2], 0, .BE⟩ (by decide)

/-- C6: for `n` below the current length, `setLength n` truncates the buffer
to its first `n` bytes and repositions the cursor to `n`, whatever the
cursor was before. -/
theorem setLength_shrink (ba : ByteArray) (n : Nat) (h : n < getLength ba) :
    setLength (n : Int) ba = some { ba with buffer := ba.buffer.take n, position := n } := by
  unfold setLength
  rw [if_neg (by omega)]
  by_cases hn : n = 0
  · subst hn
    rw [if_pos (by omega)]
    rfl
  · rw [if_neg (by omega), if_neg (by unfold getLength at h ⊢; omega),
      if_pos (by unfold getLength at h ⊢; omega)]
    simp

/-- C6 witness: `setLength 1` on a 3-byte buffer with cursor at 2. -/
theorem setLength_shrink_witness :
    setLength 1 ⟨[1, 2, 3], 2, .BE⟩ = some ⟨[1], 1, .BE⟩ := by
  have h := setLength_shrink ⟨[1, 2, 3], 2, .BE⟩ 1 (by decide)
  simpa using h

/-- C10: `setPosition` fails exactly on negative values; every nonnegative
value — integral or not, e.g. `3/2` — is accepted and stored unchanged. -/
theorem setPosition_accepts_nonneg :
    (∀ v : ℚ, (setPosition v = some v ↔ 0 ≤ v) ∧ (setPosition v = none ↔ v < 0)) ∧
      setPosition (3 / 2 : ℚ) = some (3 / 2) := by
  refine ⟨fun v => ⟨?_, ?_⟩, ?_⟩
  · by_cases h : 0 ≤ v
    · simp [setPosition, h]
    · simp [setPosition, h]
  · by_cases h : 0 ≤ v
    · simp [setPosition, h]
    · simp [setPosition, h]
      exact not_le.mp h
  · unfold setPosition
    rw [if_pos (by norm_num)]

/-- C5: for any charset the collaborator recognises, `writeMultiByte`
appends the collaborator-encoded bytes at the *end* of storage and advances
the cursor by the UTF-8 byte length of the input string — an amount
independent of the bytes actually appended. -/
theorem writeMultiByte_append_and_cursor (encodeFn : String → String → List Nat)
    (existsFn : String → Bool) (s charset : String) (ba : ByteArray)
    (h : existsFn charset = true) :
    writeMultiByte encodeFn existsFn s charset ba
      = some ⟨ba.buffer ++ encodeFn s charset, ba.position + s.utf8ByteSize, ba.endian⟩ := by
  unfold writeMultiByte
  rw [if_pos h]

/-- C5 witness: a collaborator that encodes everything to `[1, 2, 3]` and
recognises every charset, on the 2-UTF-8-byte string `"ab"`. -/
theorem writeMultiByte_append_and_cursor_witness :
    writeMultiByte (fun _ _ => [1, 2, 3]) (fun _ => true) "ab" "utf8" ⟨[], 0, .BE⟩
      = some ⟨[1, 2, 3], 2, .BE⟩ := by
  have h := writeMultiByte_append_and_cursor (fun _ _ => [1, 2, 3]) (fun _ => true)
    "ab" "utf8" ⟨[], 0, .BE⟩ rfl
  simpa using h

/-- C3 counterexample: growing a 2-byte buffer whose cursor sits at 1 with
`setLength 3` produces a 4-byte buffer, not the claimed 3-byte one —
`setLength` delegates to `expand(3)`, which sizes the growth by the
shortfall against `getBytesAvailable`, i.e. to `position + 3` bytes. -/
theorem setLength_grow_not_exact :
    setLength 3 ⟨[0, 0], 1, .BE⟩ = some ⟨[0, 0, 0, 0], 1, .BE⟩ ∧
      getLength ⟨[0, 0, 0, 0], 1, .BE⟩ = 4 ∧ (4 : Nat) ≠ 3 :=
  ⟨by decide, by decide, by decide⟩

/-- C3 (amended): for `n` above the current length, `setLength n` leaves the
cursor unchanged and grows the buffer by appending zero bytes up to a total
of `position + n` bytes (exactly `n` only when the cursor is at 0). -/
theorem setLength_grow (ba : ByteArray) (n : Nat) (h : getLength ba < n) :
    setLength (n : Int) ba
        = some ⟨ba.buffer ++ List.replicate (ba.position + n - getLength ba) 0,
            ba.position, ba.endian⟩ ∧
      (ba.buffer ++ List.replicate (ba.position + n - getLength ba) 0).length
        = ba.position + n := by
  unfold getLength at h
  constructor
  · unfold setLength
    rw [if_neg (by omega), if_neg (by omega),
      if_neg (by unfold getLength; omega), if_neg (by unfold getLength; omega)]
    rw [expand_of_lt (by unfold getBytesAvailable getLength; omega)]
    have hc : ((n : Int) - getBytesAvailable ba).toNat = ba.position + n - ba.buffer.length := by
      unfold getBytesAvailable getLength
      omega
    rw [hc]
    rfl
  · rw [List.length_append, List.length_replicate]
    unfold getLength
    omega

/-- C3 witness: the amended growth law at the counterexample input. -/
theorem setLength_grow_witness :
    setLength 3 ⟨[0, 0], 1, .BE⟩ = some ⟨[0, 0] ++ List.replicate 2 0, 1, .BE⟩ ∧
      ([0, 0] ++ List.replicate 2 0).length = 4 := by
  have h := setLength_grow ⟨[0, 0], 1, .BE⟩ 3 (by decide)
  simpa [getLength] using h

/-- C9: with the cursor strictly past the end, `expand k` grows storage to
exactly `position + k` bytes, and a 1-byte `writeByte` produces a buffer of
`position + 1` bytes in which the old content is preserved, the gap between
the old length and the cursor is zero-filled, and the wrapped value's byte
sits at `position`; the cursor advances by 1. -/
theorem writeByte_past_end (ba : ByteArray) (v : Int) (k : Nat)
    (h : getLength ba < ba.position) :
    getLength (expand (k : Int) ba) = ba.position + k ∧
      (writeByte v ba).position = ba.position + 1 ∧
      getLength (writeByte v ba) = ba.position + 1 ∧
      (∀ i, i < getLength ba → (writeByte v ba).buffer.getD i 0 = ba.buffer.getD i 0) ∧
      (∀ i, getLength ba ≤ i → i < ba.position → (writeByte v ba).buffer.getD i 0 = 0) ∧
      (writeByte v ba).buffer.getD ba.position 0 = byteOfInt (signedOverflow v 8) := by
  unfold getLength at h
  have hgap : ∀ m : Nat, expand (m : Int) ba
      = { ba with buffer := ba.buffer ++ List.replicate (ba.position + m - ba.buffer.length) 0 } := by
    intro m
    rw [expand_of_lt (by unfold getBytesAvailable getLength; omega)]
    have hc : ((m : Int) - getBytesAvailable ba).toNat
        = ba.position + m - ba.buffer.length := by
      unfold getBytesAvailable getLength
      omega
    rw [hc]
  have hwb : writeByte v ba
      = { ba with
          buffer := (ba.buffer ++ List.replicate (ba.position + 1 - ba.buffer.length) 0).set
            ba.position (byteOfInt (signedOverflow v 8)),
          position := ba.position + 1 } := by
    unfold writeByte
    rw [show ((1 : Int) = ((1 : Nat) : Int)) from rfl, hgap 1]
  have hlen1 : (ba.buffer ++ List.replicate (ba.position + 1 - ba.buffer.length) 0).length
      = ba.position + 1 := by
    rw [List.length_append, List.length_replicate]
    omega
  refine ⟨?_, ?_, ?_, ?_, ?_, ?_⟩
  · rw [hgap k]
    unfold getLength
    rw [List.length_append, List.length_replicate]
    omega
  · rw [hwb]
  · rw [hwb]
    unfold getLength
    rw [List.length_set, hlen1]
  · intro i hi
    unfold getLength at hi
    rw [hwb]
    rw [List.getD_eq_getElem _ _ (by rw [List.length_set, hlen1]; omega),
      List.getElem_set_ne (by omega),
      List.getElem_append_left (by omega),
      ← List.getD_eq_getElem _ _ (by omega)]
  · intro i hi hip
    unfold getLength at hi
    rw [hwb]
    rw [List.getD_eq_getElem _ _ (by rw [List.length_set, hlen1]; omega),
      List.getElem_set_ne (by omega),
      List.getElem_append_right (by omega)]
    exact List.getElem_replicate _ _
  · rw [hwb]
    rw [List.getD_eq_getElem _ _ (by rw [List.length_set, hlen1]; omega)]
    exact List.getElem_set_self _

/-- C9 witness: buffer `[9]` with cursor at 3; `expand 4` yields 7 bytes,
`writeByte 200` yields `[9, 0, 0, 200]` facts. -/
theorem writeByte_past_end_witness :
    getLength (expand 4 ⟨[9], 3, .BE⟩) = 7 ∧
      (writeByte 200 ⟨[9], 3, .BE⟩).position = 4 ∧
      getLength (writeByte 200 ⟨[9], 3, .BE⟩) = 4 ∧
      (writeByte 200 ⟨[9], 3, .BE⟩).buffer.getD 0 0 = 9 ∧
      (writeByte 200 ⟨[9], 3, .BE⟩).buffer.getD 1 0 = 0 ∧
      (writeByte 200 ⟨[9], 3, .BE⟩).buffer.getD 3 0 = 200 := by
  have h := writeByte_past_end ⟨[9], 3, .BE⟩ 200 4 (by decide)
  refine ⟨h.1, h.2.1, h.2.2.1, ?_, ?_, ?_⟩
  · have h4 := h.2.2.2.1 0 (by decide)
    simpa using h4
  · have h5 := h.2.2.2.2.1 1 (by decide) (by decide)
    simpa using h5
  · have h6 := h.2.2.2.2.2
    rw [h6]
    decide

/-- Lemma: `growDest` never moves the destination cursor. -/
theorem growDest_position (dest : ByteArray) (m : Int) :
    (growDest dest m).position = dest.position := by
  unfold growDest
  split
  · exact expand_position _ _
  · rfl

/-- Lemma: `growDest` never changes the destination endianness. -/
theorem growDest_endian (dest : ByteArray) (m : Int) :
    (growDest dest m).endian = dest.endian := by
  unfold growDest
  split
  · exact expand_endian _ _
  · rfl

/-- After `growDest dest m` the destination holds at least `m` bytes. -/
theorem le_length_growDest (dest : ByteArray) (m : Int) :
    m ≤ ((growDest dest m).buffer.length : Int) := by
  unfold growDest
  split
  · have h := le_length_expand m dest
    omega
  · rename_i h
    unfold getLength at h
    omega

/-- C8: `readBytes` with `length = 0` copies exactly `getBytesAvailable()`
bytes of the source into the destination at `offset`, a nonzero `length`
exceeding the source's available bytes fails, and on success only the
source's cursor advances by the copied length while the destination's
cursor (and the source's storage) stay untouched. -/
theorem readBytes_spec (src dest : ByteArray) (offset L : Nat)
    (hsrc : src.position ≤ getLength src) :
    (∃ s d, readBytes src dest offset 0 = some (s, d) ∧
        s.position = src.position + (getLength src - src.position) ∧
        s.buffer = src.buffer ∧
        d.position = dest.position ∧ d.endian = dest.endian ∧
        ∀ j, j < getLength src - src.position →
          d.buffer.getD (offset + j) 0 = src.buffer.getD (src.position + j) 0) ∧
      (L ≠ 0 → getLength src < src.position + L → readBytes src dest offset L = none) ∧
      (L ≠ 0 → src.position + L ≤ getLength src →
        ∃ s d, readBytes src dest offset L = some (s, d) ∧
          s.position = src.position + L ∧
          s.buffer = src.buffer ∧
          d.position = dest.position ∧
          ∀ j, j < L → d.buffer.getD (offset + j) 0 = src.buffer.getD (src.position + j) 0) := by
  unfold getLength at hsrc ⊢
  have hav : getBytesAvailable src = (src.buffer.length : Int) - (src.position : Int) := rfl
  have hcontent : ∀ len : Int, len ≤ getBytesAvailable src →
      ∀ j, j < len.toNat →
        (copyLoop src.buffer (growDest dest ((offset : Int) + len)).buffer
            src.position offset len.toNat).getD (offset + j) 0
          = src.buffer.getD (src.position + j) 0 := by
    intro len _ j hj
    refine copyLoop_getD _ _ _ _ _ j hj ?_
    have hg := le_length_growDest dest ((offset : Int) + len)
    omega
  refine ⟨?_, ?_, ?_⟩
  · have hd0 : defaultedLength src 0 = getBytesAvailable src := by
      unfold defaultedLength
      rfl
    have hok : ¬ getBytesAvailable src < defaultedLength src 0 := by
      rw [hd0]
      exact lt_irrefl _
    unfold readBytes
    rw [if_neg hok, hd0]
    refine ⟨_, _, rfl, ?_, rfl, growDest_position _ _, growDest_endian _ _, ?_⟩
    · dsimp only
      omega
    · intro j hj
      refine hcontent (getBytesAvailable src) le_rfl j ?_
      omega
  · intro hL hover
    have hdL : defaultedLength src L = (L : Int) := by
      unfold defaultedLength
      rw [if_neg hL]
    unfold readBytes
    rw [hdL, if_pos (by omega)]
  · intro hL hfit
    have hdL : defaultedLength src L = (L : Int) := by
      unfold defaultedLength
      rw [if_neg hL]
    have hok : ¬ getBytesAvailable src < defaultedLength src L := by
      rw [hdL]
      omega
    unfold readBytes
    rw [if_neg hok, hdL]
    refine ⟨_, _, rfl, ?_, rfl, growDest_position _ _, ?_⟩
    · dsimp only
      omega
    · intro j hj
      refine hcontent (L : Int) (by omega) j (by omega)

/-- C8 witness: source `[10, 20, 30]` with cursor at 1, destination `[7]`:
the defaulted read copies the 2 remaining bytes to offset 2, a 5-byte
request fails. -/
theorem readBytes_spec_witness :
    (∃ s d, readBytes ⟨[10, 20, 30], 1, .BE⟩ ⟨[7], 0, .BE⟩ 2 0 = some (s, d) ∧
        s.position = 3 ∧ d.position = 0 ∧
        d.buffer.getD 2 0 = 20 ∧ d.buffer.getD 3 0 = 30) ∧
      readBytes ⟨[10, 20, 30], 1, .BE⟩ ⟨[7], 0, .BE⟩ 2 5 = none := by
  have h := readBytes_spec ⟨[10, 20, 30], 1, .BE⟩ ⟨[7], 0, .BE⟩ 2 5 (by decide)
  refine ⟨?_, h.2.1 (by decide) (by decide)⟩
  obtain ⟨s, d, heq, hpos, _, hdpos, _, hcopy⟩ := h.1
  refine ⟨s, d, heq, by simpa using hpos, by simpa using hdpos, ?_, ?_⟩
  · have hc := hcopy 0 (by decide)
    simpa using hc
  · have hc := hcopy 1 (by decide)
    simpa using hc

end Bytearray
